import Mathlib

/-!
Formal model of `test-serial.py`, a diagnostic utility that exercises a
serial link by exchanging line-delimited echo payloads.

Bytes are modelled as `List Nat` (each element a byte value) and Python
text (`str`) as `List Nat` of Unicode code points.  `bytes.decode()` /
`str.encode()` are modelled by a strict UTF-8 codec: the decoder accepts
exactly the canonical encoding of each Unicode scalar value (no overlong
forms, no surrogates, nothing above U+10FFFF), which is Python's strict
`utf-8` behaviour.
-/

/-- Canonical UTF-8 encoding of a single Unicode scalar value. -/
def utf8EncodeChar (c : Nat) : List Nat :=
  if c < 0x80 then [c]
  else if c < 0x800 then [0xC0 + c / 0x40, 0x80 + c % 0x40]
  else if c < 0x10000 then [0xE0 + c / 0x1000, 0x80 + (c / 0x40) % 0x40, 0x80 + c % 0x40]
  else [0xF0 + c / 0x40000, 0x80 + (c / 0x1000) % 0x40, 0x80 + (c / 0x40) % 0x40, 0x80 + c % 0x40]

/-- UTF-8 encoding of a sequence of code points (`str.encode()`). -/
def utf8Encode : List Nat → List Nat
  | [] => []
  | c :: rest => utf8EncodeChar c ++ utf8Encode rest

/-- Number of bytes of the UTF-8 sequence introduced by lead byte `b`,
`none` when `b` cannot start a sequence. -/
def utf8SeqLen (b : Nat) : Option Nat :=
  if b < 0x80 then some 1
  else if b < 0xC0 then none
  else if b < 0xE0 then some 2
  else if b < 0xF0 then some 3
  else if b < 0xF8 then some 4
  else none

/-- Code point denoted by a UTF-8 chunk of one to four bytes (assuming the
continuation bytes are in range; the decoder separately checks canonicity). -/
def cpOfChunk : List Nat → Nat
  | [b] => b
  | [b, b1] => (b - 0xC0) * 0x40 + (b1 - 0x80)
  | [b, b1, b2] => (b - 0xE0) * 0x1000 + (b1 - 0x80) * 0x40 + (b2 - 0x80)
  | [b, b1, b2, b3] =>
      (b - 0xF0) * 0x40000 + (b1 - 0x80) * 0x1000 + (b2 - 0x80) * 0x40 + (b3 - 0x80)
  | _ => 0

/-- Fuel-indexed strict UTF-8 decoder.  Each step consumes at least one
byte, so fuel `l.length` always suffices; a chunk is accepted exactly when
it is the canonical encoding of a Unicode scalar value. -/
def utf8DecodeAux : Nat → List Nat → Option (List Nat)
  | _, [] => some []
  | 0, _ :: _ => none
  | fuel + 1, b :: rest =>
    match utf8SeqLen b with
    | none => none
    | some n =>
      if (cpOfChunk (b :: rest.take (n - 1)) < 0xD800
            ∨ (0xE000 ≤ cpOfChunk (b :: rest.take (n - 1))
                ∧ cpOfChunk (b :: rest.take (n - 1)) < 0x110000))
          ∧ utf8EncodeChar (cpOfChunk (b :: rest.take (n - 1))) = b :: rest.take (n - 1) then
        match utf8DecodeAux fuel (rest.drop (n - 1)) with
        | some cps => some (cpOfChunk (b :: rest.take (n - 1)) :: cps)
        | none => none
      else none

/-- Strict UTF-8 decoding (`bytes.decode()`); `none` models `UnicodeDecodeError`. -/
def utf8Decode (l : List Nat) : Option (List Nat) :=
  utf8DecodeAux l.length l

lemma utf8Encode_append (a b : List Nat) :
    utf8Encode (a ++ b) = utf8Encode a ++ utf8Encode b := by
  induction a with
  | nil => rfl
  | cons c rest ih => simp [utf8Encode, ih]

lemma utf8DecodeAux_encode :
    ∀ (fuel : Nat) (l cps : List Nat), utf8DecodeAux fuel l = some cps → utf8Encode cps = l := by
  intro fuel
  induction fuel with
  | zero =>
    intro l cps h
    cases l with
    | nil =>
      simp [utf8DecodeAux] at h
      subst h
      rfl
    | cons b rest => simp [utf8DecodeAux] at h
  | succ fuel ih =>
    intro l cps h
    cases l with
    | nil =>
      simp [utf8DecodeAux] at h
      subst h
      rfl
    | cons b rest =>
      rw [utf8DecodeAux] at h
      cases hsl : utf8SeqLen b with
      | none => rw [hsl] at h; simp at h
      | some n =>
        rw [hsl] at h
        simp only at h
        split at h
        case isTrue hc =>
          cases hd : utf8DecodeAux fuel (rest.drop (n - 1)) with
          | none => rw [hd] at h; simp at h
          | some cps' =>
            rw [hd] at h
            simp only [Option.some.injEq] at h
            subst h
            have henc := ih (rest.drop (n - 1)) cps' hd
            calc utf8Encode (cpOfChunk (b :: rest.take (n - 1)) :: cps')
                = utf8EncodeChar (cpOfChunk (b :: rest.take (n - 1))) ++ utf8Encode cps' := rfl
              _ = (b :: rest.take (n - 1)) ++ rest.drop (n - 1) := by rw [hc.2, henc]
              _ = b :: rest := by simp [List.take_append_drop]
        case isFalse hc => simp at h

/-- Round trip: a successfully decoded byte string re-encodes to itself
(UTF-8 canonicity). -/
lemma utf8Encode_utf8Decode {l cps : List Nat} (h : utf8Decode l = some cps) :
    utf8Encode cps = l :=
  utf8DecodeAux_encode l.length l cps h

/-- Python `payload.replace("TX", "RX")` (all occurrences, case-sensitive):
scan left to right; wherever the text starts with `TX` (code points 84, 88)
emit `RX` (82, 88) and skip two characters, otherwise emit the character. -/
def replaceTX : List Nat → List Nat
  | [] => []
  | [c] => [c]
  | c1 :: c2 :: rest =>
    if c1 = 84 ∧ c2 = 88 then 82 :: 88 :: replaceTX rest
    else c1 :: replaceTX (c2 :: rest)

/-- Whether the text contains an occurrence of the substring `TX`. -/
def hasTX : List Nat → Bool
  | [] => false
  | [_] => false
  | c1 :: c2 :: rest =>
    if c1 = 84 ∧ c2 = 88 then true
    else hasTX (c2 :: rest)

lemma hasTX_iff (l : List Nat) : hasTX l = true ↔ ∃ a b, l = a ++ 84 :: 88 :: b := by
  induction l using hasTX.induct with
  | case1 =>
    simp only [hasTX, Bool.false_eq_true, false_iff]
    rintro ⟨a, b, hab⟩
    cases a <;> simp at hab
  | case2 c =>
    simp only [hasTX, Bool.false_eq_true, false_iff]
    rintro ⟨a, b, hab⟩
    cases a with
    | nil => simp at hab
    | cons x a' => cases a' <;> simp at hab
  | case3 c1 c2 rest hc =>
    simp only [hasTX, if_pos hc, true_iff]
    exact ⟨[], rest, by simp [hc.1, hc.2]⟩
  | case4 c1 c2 rest hc ih =>
    simp only [hasTX, if_neg hc]
    rw [ih]
    constructor
    · rintro ⟨a, b, hab⟩
      exact ⟨c1 :: a, b, by simp [hab]⟩
    · rintro ⟨a, b, hab⟩
      cases a with
      | nil =>
        simp at hab
        exact absurd ⟨hab.1, hab.2.1⟩ hc
      | cons x a' =>
        simp at hab
        exact ⟨a', b, hab.2⟩

lemma replaceTX_of_not_hasTX {l : List Nat} (h : hasTX l = false) : replaceTX l = l := by
  induction l using replaceTX.induct with
  | case1 => rfl
  | case2 c => rfl
  | case3 c1 c2 rest hc => simp [hasTX, if_pos hc] at h
  | case4 c1 c2 rest hc ih =>
    simp only [hasTX, if_neg hc] at h
    simp [replaceTX, if_neg hc, ih h]

lemma replaceTX_head (c : Nat) (rest : List Nat) :
    ∃ h t, replaceTX (c :: rest) = h :: t ∧ (h = 82 ∨ h = c) := by
  cases rest with
  | nil => exact ⟨c, [], rfl, Or.inr rfl⟩
  | cons c2 rest' =>
    by_cases hc : c = 84 ∧ c2 = 88
    · exact ⟨82, 88 :: replaceTX rest', by simp [replaceTX, if_pos hc], Or.inl rfl⟩
    · exact ⟨c, replaceTX (c2 :: rest'), by simp [replaceTX, if_neg hc], Or.inr rfl⟩

lemma hasTX_cons_of_ne {x : Nat} (hx : x ≠ 84) (r : List Nat) : hasTX (x :: r) = hasTX r := by
  cases r with
  | nil => rfl
  | cons h t =>
    simp only [hasTX]
    rw [if_neg (fun hh => hx hh.1)]

/-- The replacement removes every occurrence of `TX`: none remains in the output. -/
lemma hasTX_replaceTX (l : List Nat) : hasTX (replaceTX l) = false := by
  induction l using replaceTX.induct with
  | case1 => rfl
  | case2 c => rfl
  | case3 c1 c2 rest hc ih =>
    rw [replaceTX, if_pos hc]
    rw [hasTX_cons_of_ne (by omega), hasTX_cons_of_ne (by omega)]
    exact ih
  | case4 c1 c2 rest hc ih =>
    rw [replaceTX, if_neg hc]
    obtain ⟨h, t, heq, hh⟩ := replaceTX_head c2 rest
    rw [heq]
    have hcn : ¬(c1 = 84 ∧ h = 88) := by
      rintro ⟨rfl, rfl⟩
      rcases hh with h82 | hc2
      · omega
      · exact hc ⟨rfl, hc2.symm⟩
    simp only [hasTX, if_neg hcn]
    rw [← heq]
    exact ih

/-- One observable effect of a server loop iteration. -/
inductive ServerAction where
  | reply (response : List Nat) : ServerAction
  | logDecodeFailure (payload : List Nat) : ServerAction
deriving DecidableEq

/-- Body of `SerialInterface.echo_server`'s loop for one line read from the
port: decode the payload, replace `TX` by `RX` and write the result back;
on `UnicodeDecodeError` print a diagnostic to stderr and write nothing. -/
def serverStep (line : List Nat) : ServerAction :=
  match utf8Decode line with
  | some cps => ServerAction.reply (utf8Encode (replaceTX cps))
  | none => ServerAction.logDecodeFailure line

/-- Result of one trip through the `while True:` body: either the loop
continues with the iteration's action, or it has reached a terminal state. -/
inductive LoopOutcome where
  | next (action : ServerAction) : LoopOutcome
  | halted : LoopOutcome
deriving DecidableEq

/-- One iteration of `echo_server`: the body has no `break`/`return`, and the
only exception its operations raise in the model (`UnicodeDecodeError` from
`payload.decode()`) is caught, so every iteration continues the loop. -/
def echo_server_iteration (line : List Nat) : LoopOutcome :=
  LoopOutcome.next (serverStep line)

/-- Running `echo_server` for `n` iterations against the stream of lines
returned by `readline`: the accumulated actions and whether the loop is
still running. -/
def echo_server_run (reads : Nat → List Nat) : Nat → List ServerAction × Bool
  | 0 => ([], true)
  | n + 1 =>
    match echo_server_run reads n with
    | (actions, true) =>
      match echo_server_iteration (reads n) with
      | LoopOutcome.next a => (actions ++ [a], true)
      | LoopOutcome.halted => (actions, false)
    | (actions, false) => (actions, false)

lemma echo_server_run_eq (reads : Nat → List Nat) (n : Nat) :
    echo_server_run reads n = ((List.range n).map (fun i => serverStep (reads i)), true) := by
  induction n with
  | zero => rfl
  | succ n ih =>
    rw [echo_server_run, ih]
    simp [echo_server_iteration, List.range_succ]

lemma getLast?_cons_of_getLast? {x : Nat} {l : List Nat} {a : Nat}
    (h : l.getLast? = some a) : (x :: l).getLast? = some a := by
  cases l with
  | nil => simp at h
  | cons y t => rw [List.getLast?_cons_cons]; exact h

/-- Replacing `TX` by `RX` keeps a trailing line feed in place. -/
lemma replaceTX_getLast_lf {l : List Nat} (h : l.getLast? = some 10) :
    (replaceTX l).getLast? = some 10 := by
  induction l using replaceTX.induct with
  | case1 => simp at h
  | case2 c =>
    simp at h
    simp [replaceTX, h]
  | case3 c1 c2 rest hc ih =>
    rw [replaceTX, if_pos hc]
    cases rest with
    | nil =>
      rw [List.getLast?_cons_cons] at h
      simp at h
      omega
    | cons r t =>
      rw [List.getLast?_cons_cons, List.getLast?_cons_cons] at h
      exact getLast?_cons_of_getLast? (getLast?_cons_of_getLast? (ih h))
  | case4 c1 c2 rest hc ih =>
    rw [replaceTX, if_neg hc]
    rw [List.getLast?_cons_cons] at h
    exact getLast?_cons_of_getLast? (ih h)

/-- A line feed at the end of the code points encodes to a line feed at the
end of the bytes. -/
lemma utf8Encode_getLast_lf {l : List Nat} (h : l.getLast? = some 10) :
    (utf8Encode l).getLast? = some 10 := by
  obtain ⟨l', rfl⟩ := List.getLast?_eq_some_iff.mp h
  rw [utf8Encode_append]
  have : utf8Encode [10] = [10] := rfl
  rw [this, List.getLast?_concat]

/-- Result of constructing a serial adapter, given the bytes already
buffered on the port at open time.  `ok buf` means construction succeeded
with `buf` still unread in the input buffer; `nameError` models the Python
`NameError` raised by evaluating the undefined name `ser`. -/
inductive InitResult where
  | ok (buffered : List Nat) : InitResult
  | nameError : InitResult
deriving DecidableEq

/-- `SerialInterface.__init__`: opens the port, then, to drain the RX
buffer, runs `if self.port.in_waiting > 0: self.port.read(ser.in_waiting)`.
The name `ser` is undefined, so whenever bytes are waiting the statement
raises `NameError` instead of draining; with an empty buffer the branch is
skipped and the (empty) buffer is left as is. -/
def serialInterface_init (buffered : List Nat) : InitResult :=
  if buffered.length > 0 then InitResult.nameError else InitResult.ok buffered

/-- `RS485Interface.__init__`: opens the RS485 port and sets `rs485_mode`;
it does not call `SerialInterface.__init__` and contains no drain step, so
whatever was buffered stays buffered. -/
def rs485Interface_init (buffered : List Nat) : InitResult :=
  InitResult.ok buffered

/-- Code points of a Lean string literal, used to transcribe the Python
string literals of the script. -/
def strCodepoints (s : String) : List Nat :=
  s.data.map Char.toNat

/-- Decimal digits (as code points) of `run`, as produced by the f-string
interpolation `f"{run}"`. -/
def decRepr (n : Nat) : List Nat :=
  (Nat.toDigits 10 n).map Char.toNat

/-- Bytes of `f"TX_run_{run}\n".encode()`, the payload the client writes in
iteration `run`. -/
def txPayload (run : Nat) : List Nat :=
  utf8Encode (strCodepoints "TX_run_" ++ decRepr run ++ strCodepoints "\n")

/-- Bytes of `f"RX_run_{run}\n".encode()`, the response the client expects
in iteration `run`. -/
def rxExpected (run : Nat) : List Nat :=
  utf8Encode (strCodepoints "RX_run_" ++ decRepr run ++ strCodepoints "\n")

/-- The exception `InvalidSerial5Reponse(response, expected_response)`,
carrying the actual and the expected byte sequences. -/
structure InvalidSerial5Reponse where
  response : List Nat
  expected_response : List Nat
deriving DecidableEq

/-- One exchange of the client: the bytes written and the bytes the read
line is compared against. -/
structure Exchange where
  sent : List Nat
  expected : List Nat
deriving DecidableEq

/-- The loop of `echo_client`, started at index `run` with `count`
iterations left.  `responses k` is the line `readline()` returns in
iteration `k`.  Each iteration writes `txPayload run`, reads the response
and either continues or raises `InvalidSerial5Reponse`; the result is the
list of performed exchanges together with the raised exception, if any. -/
def clientLoop (responses : Nat → List Nat) (run : Nat) :
    Nat → List Exchange × Option InvalidSerial5Reponse
  | 0 => ([], none)
  | remaining + 1 =>
    if responses run = rxExpected run then
      ((⟨txPayload run, rxExpected run⟩ : Exchange)
          :: (clientLoop responses (run + 1) remaining).1,
        (clientLoop responses (run + 1) remaining).2)
    else
      ([⟨txPayload run, rxExpected run⟩], some ⟨responses run, rxExpected run⟩)

/-- `SerialInterface.echo_client(num_runs)`: `for run in range(num_runs + 1)`. -/
def echo_client (responses : Nat → List Nat) (num_runs : Nat) :
    List Exchange × Option InvalidSerial5Reponse :=
  clientLoop responses 0 (num_runs + 1)

/-- `echo_client` as `main` invokes it in client mode, without an argument:
Python's default parameter value `num_runs = 10` applies. -/
def echo_client_default (responses : Nat → List Nat) :
    List Exchange × Option InvalidSerial5Reponse :=
  echo_client responses 10

/-- The exchange performed at index `run` when reached. -/
def exchangeAt (run : Nat) : Exchange :=
  ⟨txPayload run, rxExpected run⟩

lemma clientLoop_allMatch (responses : Nat → List Nat) :
    ∀ (count start : Nat), (∀ k, k < start + count → responses k = rxExpected k) →
      clientLoop responses start count = ((List.range' start count).map exchangeAt, none) := by
  intro count
  induction count with
  | zero => intro start h; simp [clientLoop]
  | succ c ih =>
    intro start h
    have hs : responses start = rxExpected start := h start (by omega)
    rw [clientLoop, if_pos hs, ih (start + 1) (fun k hk => h k (by omega))]
    rw [List.range'_succ]
    rfl

lemma clientLoop_mismatch (responses : Nat → List Nat) :
    ∀ (j count start : Nat), j < count →
      (∀ k, k < j → responses (start + k) = rxExpected (start + k)) →
      responses (start + j) ≠ rxExpected (start + j) →
      clientLoop responses start count
        = ((List.range' start (j + 1)).map exchangeAt,
            some ⟨responses (start + j), rxExpected (start + j)⟩) := by
  intro j
  induction j with
  | zero =>
    intro count start hj hpre hmis
    cases count with
    | zero => omega
    | succ c =>
      simp only [Nat.add_zero] at hmis ⊢
      rw [clientLoop, if_neg hmis, List.range'_one]
      rfl
  | succ j ih =>
    intro count start hj hpre hmis
    cases count with
    | zero => omega
    | succ c =>
      have hs : responses start = rxExpected start := by
        have := hpre 0 (by omega)
        simpa using this
      have hpre' : ∀ k, k < j → responses (start + 1 + k) = rxExpected (start + 1 + k) := by
        intro k hk
        have h1 := hpre (k + 1) (by omega)
        have harith : start + (k + 1) = start + 1 + k := by omega
        rwa [harith] at h1
      have hmis' : responses (start + 1 + j) ≠ rxExpected (start + 1 + j) := by
        have harith : start + (j + 1) = start + 1 + j := by omega
        rwa [harith] at hmis
      rw [clientLoop, if_pos hs, ih c (start + 1) (by omega) hpre' hmis']
      rw [List.range'_succ]
      have harith : start + 1 + j = start + (j + 1) := by omega
      rw [harith]
      rfl

lemma clientLoop_getElem (responses : Nat → List Nat) :
    ∀ (count start k : Nat) (e : Exchange),
      ((clientLoop responses start count).1)[k]? = some e → e = exchangeAt (start + k) := by
  intro count
  induction count with
  | zero => intro start k e h; simp [clientLoop] at h
  | succ c ih =>
    intro start k e h
    rw [clientLoop] at h
    by_cases hs : responses start = rxExpected start
    · rw [if_pos hs] at h
      dsimp only at h
      cases k with
      | zero =>
        simp only [List.getElem?_cons_zero, Option.some.injEq] at h
        rw [← h]
        simp [exchangeAt]
      | succ k' =>
        simp only [List.getElem?_cons_succ] at h
        have he := ih (start + 1) k' e h
        rw [he]
        congr 1
        omega
    · rw [if_neg hs] at h
      dsimp only at h
      cases k with
      | zero =>
        simp only [List.getElem?_cons_zero, Option.some.injEq] at h
        rw [← h]
        simp [exchangeAt]
      | succ k' => simp at h

lemma strCodepoints_nl : strCodepoints "\n" = [10] := rfl

lemma txPayload_concat (run : Nat) :
    txPayload run = utf8Encode (strCodepoints "TX_run_" ++ decRepr run) ++ [10] := by
  unfold txPayload
  rw [strCodepoints_nl, utf8Encode_append]
  rfl

lemma txPayload_getLast (run : Nat) : (txPayload run).getLast? = some 10 := by
  rw [txPayload_concat, List.getLast?_concat]

lemma rxExpected_ne_nil (run : Nat) : rxExpected run ≠ [] := by
  unfold rxExpected
  have h7 : strCodepoints "RX_run_" = 82 :: [88, 95, 114, 117, 110, 95] := rfl
  rw [h7]
  simp [List.cons_append, utf8Encode, utf8EncodeChar]

lemma serverStep_decoded {line cps : List Nat} (h : utf8Decode line = some cps) :
    serverStep line = ServerAction.reply (utf8Encode (replaceTX cps)) := by
  simp [serverStep, h]

lemma serverStep_decodeFailure {line : List Nat} (h : utf8Decode line = none) :
    serverStep line = ServerAction.logDecodeFailure line := by
  simp [serverStep, h]

/-- Claim C1: for every `num_runs`, against a peer whose responses all match,
`echo_client` performs exactly `num_runs + 1` exchanges, for run index `0`
through `num_runs` inclusive, the `k`-th writing the bytes of
`f"TX_run_{k}\n"` and comparing against the bytes of `f"RX_run_{k}\n"`. -/
theorem echo_client_inclusive_exchanges (num_runs : Nat) (responses : Nat → List Nat)
    (h : ∀ k, k ≤ num_runs → responses k = rxExpected k) :
    echo_client responses num_runs = ((List.range (num_runs + 1)).map exchangeAt, none) := by
  unfold echo_client
  rw [clientLoop_allMatch responses (num_runs + 1) 0 (fun k hk => h k (by omega))]
  rw [List.range_eq_range']

theorem echo_client_inclusive_exchanges_witness :
    echo_client rxExpected 2
      = ([⟨txPayload 0, rxExpected 0⟩, ⟨txPayload 1, rxExpected 1⟩, ⟨txPayload 2, rxExpected 2⟩],
          none) := by
  have h := echo_client_inclusive_exchanges 2 rxExpected (fun _ _ => rfl)
  rw [h]
  rfl

/-- Claim C2: for any line the server successfully decodes, the reply is the
decoded text with every non-overlapping occurrence of `TX` replaced by `RX`,
re-encoded; a line with zero occurrences of `TX` is echoed back unchanged
byte for byte, and no occurrence of `TX` survives the replacement. -/
theorem echo_server_transform (line cps : List Nat) (h : utf8Decode line = some cps) :
    serverStep line = ServerAction.reply (utf8Encode (replaceTX cps))
    ∧ ((¬ ∃ a b, cps = a ++ 84 :: 88 :: b) → serverStep line = ServerAction.reply line)
    ∧ (¬ ∃ a b, replaceTX cps = a ++ 84 :: 88 :: b) := by
  refine ⟨serverStep_decoded h, ?_, ?_⟩
  · intro hno
    have hfalse : hasTX cps = false := by
      cases hb : hasTX cps with
      | false => rfl
      | true => exact absurd ((hasTX_iff cps).mp hb) hno
    rw [serverStep_decoded h, replaceTX_of_not_hasTX hfalse, utf8Encode_utf8Decode h]
  · rintro ⟨a, b, hab⟩
    have htrue : hasTX (replaceTX cps) = true := (hasTX_iff _).mpr ⟨a, b, hab⟩
    rw [hasTX_replaceTX] at htrue
    exact Bool.false_ne_true htrue

theorem echo_server_transform_witness :
    serverStep (utf8Encode (strCodepoints "hello_TX_TX\n"))
      = ServerAction.reply (utf8Encode (strCodepoints "hello_RX_RX\n")) := by
  have h := (echo_server_transform (utf8Encode (strCodepoints "hello_TX_TX\n"))
      (strCodepoints "hello_TX_TX\n") (by decide)).1
  rw [h]
  decide

/-- Claim C3: on the first exchange whose read-back line differs from the
expected bytes, `echo_client` raises `InvalidSerial5Reponse` carrying the
actual and the expected byte sequences unmodified and attempts no further
exchange; when every exchange matches, it returns normally. -/
theorem echo_client_mismatch_failfast (num_runs j : Nat) (responses : Nat → List Nat) :
    (j ≤ num_runs → (∀ k, k < j → responses k = rxExpected k) →
        responses j ≠ rxExpected j →
        echo_client responses num_runs
          = ((List.range (j + 1)).map exchangeAt, some ⟨responses j, rxExpected j⟩))
    ∧ ((∀ k, k ≤ num_runs → responses k = rxExpected k) →
        echo_client responses num_runs = ((List.range (num_runs + 1)).map exchangeAt, none)) := by
  constructor
  · intro hj hpre hmis
    unfold echo_client
    have h0 := clientLoop_mismatch responses j (num_runs + 1) 0 (by omega)
        (fun k hk => by simpa using hpre k hk) (by simpa using hmis)
    rw [h0]
    simp [List.range_eq_range']
  · intro hall
    unfold echo_client
    rw [clientLoop_allMatch responses (num_runs + 1) 0 (fun k hk => hall k (by omega))]
    rw [List.range_eq_range']

theorem echo_client_mismatch_failfast_witness :
    echo_client (fun _ => []) 1 = ([⟨txPayload 0, rxExpected 0⟩], some ⟨[], rxExpected 0⟩)
    ∧ (echo_client rxExpected 1).2 = none := by
  constructor
  · have h := (echo_client_mismatch_failfast 1 0 (fun _ => [])).1 (by omega)
        (fun _ hk => absurd hk (by omega)) (by decide)
    rw [h]
    rfl
  · have h := (echo_client_mismatch_failfast 1 0 rxExpected).2 (fun _ _ => rfl)
    rw [h]

/-- Claim C4: a line whose bytes fail to decode does not crash the server
and produces no reply; the failure is logged to the diagnostic stream and
the loop goes on to serve subsequent lines. -/
theorem echo_server_decode_failure (line : List Nat) (h : utf8Decode line = none) :
    echo_server_iteration line = LoopOutcome.next (ServerAction.logDecodeFailure line)
    ∧ (∀ resp, serverStep line ≠ ServerAction.reply resp)
    ∧ (∀ reads : Nat → List Nat, reads 0 = line →
        echo_server_run reads 2
          = ([ServerAction.logDecodeFailure line, serverStep (reads 1)], true)) := by
  refine ⟨?_, ?_, ?_⟩
  · unfold echo_server_iteration
    rw [serverStep_decodeFailure h]
  · intro resp hr
    rw [serverStep_decodeFailure h] at hr
    exact ServerAction.noConfusion hr
  · intro reads h0
    rw [echo_server_run_eq]
    have hr2 : List.range 2 = [0, 1] := rfl
    rw [hr2]
    simp only [List.map_cons, List.map_nil]
    rw [h0, serverStep_decodeFailure h]

theorem echo_server_decode_failure_witness :
    echo_server_iteration [255] = LoopOutcome.next (ServerAction.logDecodeFailure [255])
    ∧ echo_server_run (fun _ => [255]) 2
        = ([ServerAction.logDecodeFailure [255], ServerAction.logDecodeFailure [255]], true) := by
  have h := echo_server_decode_failure [255] (by decide)
  refine ⟨h.1, ?_⟩
  have h2 := h.2.2 (fun _ => [255]) rfl
  rw [h2]
  decide

/-- Claim C5: the claim says both adapters drain the input buffer exactly
once at construction; in the code, `SerialInterface.__init__` raises
`NameError` (undefined name `ser`) whenever bytes are buffered instead of
draining them, and `RS485Interface.__init__` performs no drain at all,
leaving the stale byte buffered. -/
theorem drain_input_buffer_bug :
    serialInterface_init [1] = InitResult.nameError
    ∧ rs485Interface_init [1] = InitResult.ok [1]
    ∧ InitResult.ok [1] ≠ InitResult.ok [] := by
  decide

/-- Claim C6, counterexample: the server's reply to a partial (timeout)
read such as `b"abc"` is written back without a trailing line separator,
so not every written payload is `\n`-terminated. -/
theorem server_reply_without_terminator :
    echo_server_run (fun _ => [97, 98, 99]) 1 = ([ServerAction.reply [97, 98, 99]], true)
    ∧ ([97, 98, 99] : List Nat).getLast? ≠ some 10 := by
  decide

/-- Claim C6, amended: every payload the client writes ends in `\n`; the
server's reply ends in `\n` whenever the decoded line it echoes does (in
particular for every complete line), but a partial or empty read may be
echoed without the terminator. -/
theorem newline_termination_amended :
    (∀ (responses : Nat → List Nat) (num_runs k : Nat) (e : Exchange),
        ((echo_client responses num_runs).1)[k]? = some e → e.sent.getLast? = some 10)
    ∧ (∀ line cps : List Nat, utf8Decode line = some cps → cps.getLast? = some 10 →
        serverStep line = ServerAction.reply (utf8Encode (replaceTX cps))
          ∧ (utf8Encode (replaceTX cps)).getLast? = some 10) := by
  constructor
  · intro responses num_runs k e he
    have hk := clientLoop_getElem responses (num_runs + 1) 0 k e he
    rw [hk]
    exact txPayload_getLast (0 + k)
  · intro line cps hdec hlast
    exact ⟨serverStep_decoded hdec, utf8Encode_getLast_lf (replaceTX_getLast_lf hlast)⟩

theorem newline_termination_amended_witness :
    (exchangeAt 0).sent.getLast? = some 10
    ∧ serverStep [84, 88, 10] = ServerAction.reply (utf8Encode (replaceTX [84, 88, 10]))
    ∧ (utf8Encode (replaceTX [84, 88, 10])).getLast? = some 10 := by
  refine ⟨?_, ?_, ?_⟩
  · exact newline_termination_amended.1 rxExpected 0 0 (exchangeAt 0) (by decide)
  · exact (newline_termination_amended.2 [84, 88, 10] [84, 88, 10] (by decide) (by decide)).1
  · exact (newline_termination_amended.2 [84, 88, 10] [84, 88, 10] (by decide) (by decide)).2

/-- Claim C7: the server loop has no reachable terminal state of its own:
for any stream of lines read and any number of iterations, every iteration
continues the loop and all lines get processed. -/
theorem echo_server_never_halts (reads : Nat → List Nat) (n : Nat) :
    (echo_server_run reads n).2 = true
    ∧ (echo_server_run reads n).1.length = n
    ∧ (∀ line, echo_server_iteration line ≠ LoopOutcome.halted) := by
  refine ⟨?_, ?_, ?_⟩
  · rw [echo_server_run_eq]
  · rw [echo_server_run_eq]
    simp
  · intro line hl
    exact LoopOutcome.noConfusion hl

/-- Claim C8: a read timeout, surfacing as an empty read result, makes the
client raise the ordinary `InvalidSerial5Reponse` mismatch error carrying
the empty bytes and the expected bytes, with no distinct timeout error and
no retry (no exchange is attempted after index `j`). -/
theorem echo_client_timeout_mismatch (num_runs j : Nat) (responses : Nat → List Nat)
    (hj : j ≤ num_runs) (hpre : ∀ k, k < j → responses k = rxExpected k)
    (hempty : responses j = []) :
    echo_client responses num_runs
      = ((List.range (j + 1)).map exchangeAt, some ⟨[], rxExpected j⟩) := by
  have hmis : responses j ≠ rxExpected j := by
    rw [hempty]
    exact fun hh => rxExpected_ne_nil j hh.symm
  unfold echo_client
  have h0 := clientLoop_mismatch responses j (num_runs + 1) 0 (by omega)
      (fun k hk => by simpa using hpre k hk) (by simpa using hmis)
  rw [h0]
  simp [List.range_eq_range', hempty]

theorem echo_client_timeout_mismatch_witness :
    echo_client (fun _ => []) 0 = ([⟨txPayload 0, rxExpected 0⟩], some ⟨[], rxExpected 0⟩) := by
  have h := echo_client_timeout_mismatch 0 0 (fun _ => []) (by omega)
      (fun _ hk => absurd hk (by omega)) rfl
  rw [h]
  rfl

/-- Claim C9: invoked without an explicit `num_runs` (as `main` does in
client mode), `echo_client` uses the default `num_runs = 10` and so, against
a matching peer, performs 11 exchanges with run indices 0 through 10. -/
theorem echo_client_default_num_runs (responses : Nat → List Nat)
    (h : ∀ k, k ≤ 10 → responses k = rxExpected k) :
    echo_client_default responses = ((List.range 11).map exchangeAt, none)
    ∧ (echo_client_default responses).1.length = 11 := by
  have h0 : echo_client_default responses = ((List.range 11).map exchangeAt, none) := by
    unfold echo_client_default echo_client
    have hm := clientLoop_allMatch responses (10 + 1) 0 (fun k hk => h k (by omega))
    rw [hm, List.range_eq_range']
  exact ⟨h0, by rw [h0]; simp⟩

theorem echo_client_default_num_runs_witness :
    (echo_client_default rxExpected).1.length = 11 :=
  (echo_client_default_num_runs rxExpected (fun _ _ => rfl)).2

/-- Claim C10: the payload written in the `k`-th exchange is determined by
the loop index alone, not by the responses received: two runs with the same
`num_runs` that both reach exchange `k` write identical bytes there, namely
`txPayload k`. -/
theorem client_payloads_independent_of_responses (num_runs k : Nat)
    (r1 r2 : Nat → List Nat) (e1 e2 : Exchange)
    (h1 : ((echo_client r1 num_runs).1)[k]? = some e1)
    (h2 : ((echo_client r2 num_runs).1)[k]? = some e2) :
    e1.sent = e2.sent ∧ e1.sent = txPayload k := by
  have he1 := clientLoop_getElem r1 (num_runs + 1) 0 k e1 h1
  have he2 := clientLoop_getElem r2 (num_runs + 1) 0 k e2 h2
  rw [he1, he2]
  refine ⟨rfl, ?_⟩
  show (exchangeAt (0 + k)).sent = txPayload k
  simp [exchangeAt]

theorem client_payloads_independent_of_responses_witness :
    (exchangeAt 0).sent = (exchangeAt 0).sent ∧ (exchangeAt 0).sent = txPayload 0 :=
  client_payloads_independent_of_responses 1 0 rxExpected (fun _ => [])
    (exchangeAt 0) (exchangeAt 0) (by decide) (by decide)
